import Mathlib

/-!
Verification of the dbSNP index builder pipeline of gemBS-rs
(src/rust/dbsnp_index/src/process.rs) against its specification.

The reader stage, reader buffer, storage stage and coordinator are embedded
shallowly from `process.rs`.  The types and functions that `process.rs` uses
from sibling modules not present in the slice (`snp.rs`, `contig.rs`,
`config.rs`) are modelled from the specification; each such definition says so
in its doc comment.
-/

namespace GemBS

/-- Modelled from the spec: `RawSnp` (defined in the dbsnp_index `snp` module,
absent from the slice): position, name (≤ 31 bytes), packed allele code and
maf/flags byte. -/
structure RawSnp where
  pos : Nat
  name : String
  alleles : Nat
  mafFlags : Nat
deriving DecidableEq, Repr

/-- Modelled from the spec: a contig handle.  Contigs are interned once per
name (spec §4.B: exactly one `ContigState` per contig name), so a handle is
represented by the interned name. -/
abbrev Contig := String

/-- Modelled from the spec: `Snp` pairs a `RawSnp` with its contig handle. -/
structure Snp where
  raw : RawSnp
  contig : Contig
deriving DecidableEq, Repr

/-- Modelled from the spec: `SnpBlock` (dbsnp_index `snp` module, absent from
the slice): one contig handle plus an ordered sequence of raw SNPs. -/
structure SnpBlock where
  contig : Contig
  snps : List RawSnp
deriving DecidableEq, Repr

/-- One step of the fold inside `SnpBlock::min_max`: extend the running
position bounds by one SNP. -/
def pos_step (p : Nat × Nat) (r : RawSnp) : Nat × Nat :=
  (Nat.min p.1 r.pos, Nat.max p.2 r.pos)

/-- Modelled from the spec: `SnpBlock::min_max` returns the minimum and maximum
SNP position in the block, or nothing for an empty block. -/
def SnpBlock.minMax (sb : SnpBlock) : Option (Nat × Nat) :=
  match sb.snps with
  | [] => none
  | s :: rest => some (rest.foldl pos_step (s.pos, s.pos))

/-- Modelled from the spec: the configuration object handed to the builder
(`config.rs` is absent from the slice).  `threads` ≥ 1 sets the stage sizes,
`blockLimit` is the optional `block_limit` key (spec default 256), `contigs`
is the contig table (names only; the sole authority for known contigs) and
`prefMap` is the optional `name_prefix_map`. -/
structure Config where
  threads : Nat
  blockLimit : Option Nat
  contigs : List Contig
  prefMap : List (String × String)
deriving DecidableEq, Repr

/-! ### Association-list operations backing the `ReaderBuf` HashMap -/

/-- Lookup of a bucket by contig key (models `HashMap::get` / `entry`). -/
def lookupBucket (k : Contig) : List (Contig × List RawSnp) → Option (List RawSnp)
  | [] => none
  | p :: rest => if p.1 = k then some p.2 else lookupBucket k rest

/-- Replace (or append) the bucket stored under key `k`
(models in-place mutation of the HashMap entry). -/
def updateBucket (k : Contig) (v : List RawSnp) :
    List (Contig × List RawSnp) → List (Contig × List RawSnp)
  | [] => [(k, v)]
  | p :: rest => if p.1 = k then (k, v) :: rest else p :: updateBucket k v rest

/-- Remove the bucket stored under key `k` (models `HashMap::remove`). -/
def eraseKey (k : Contig) :
    List (Contig × List RawSnp) → List (Contig × List RawSnp)
  | [] => []
  | p :: rest => if p.1 = k then eraseKey k rest else p :: eraseKey k rest

/-! ### ReaderBuf (process.rs lines 15–35) -/

/-- Structure `ReaderBuf` from process.rs: per-reader map from contig name to the bucket
of raw SNPs accumulated for that contig, plus the flush limit. -/
structure ReaderBuf where
  buffer : List (Contig × List RawSnp)
  limit : Nat
deriving DecidableEq, Repr

/-- Constructor `ReaderBuf::new` from process.rs. -/
def ReaderBuf.new (limit : Nat) : ReaderBuf :=
  { buffer := [], limit := limit }

/-- Method `ReaderBuf::add_snp` from process.rs: append the raw part to the bucket
keyed by the snp's contig name; if the bucket length reaches the limit, remove
it from the buffer and send it as one `SnpBlock` on the contig's channel.  The
sent block (if any) is returned as the second component. -/
def ReaderBuf.add_snp (rb : ReaderBuf) (snp : Snp) : ReaderBuf × Option SnpBlock :=
  let v := (lookupBucket snp.contig rb.buffer).getD [] ++ [snp.raw]
  if rb.limit ≤ v.length then
    ({ buffer := eraseKey snp.contig rb.buffer, limit := rb.limit },
      some { contig := snp.contig, snps := v })
  else
    ({ buffer := updateBucket snp.contig v rb.buffer, limit := rb.limit }, none)

/-- A sequence of `add_snp` calls; collects the blocks sent to the contig
channels in order. -/
def ReaderBuf.addAll : ReaderBuf → List Snp → ReaderBuf × List SnpBlock
  | rb, [] => (rb, [])
  | rb, s :: rest =>
    let pr := rb.add_snp s
    let r := ReaderBuf.addAll pr.1 rest
    (r.1, pr.2.toList ++ r.2)

/-! ### BED line parsing (SNP builder) -/

/-- Character-list test that `pat` is a leading segment of `s` (used to model
`str::starts_with` and prefix-map application so that proofs can evaluate in
the kernel). -/
def starts_with : List Char → List Char → Bool
  | _, [] => true
  | [], _ :: _ => false
  | c :: cs, d :: ds => c = d && starts_with cs ds

/-- Model of `str::starts_with` on strings. -/
def str_starts_with (s pat : String) : Bool :=
  starts_with s.data pat.data

/-- Split a character list at tab characters (models splitting a BED line into
its tab-separated fields). -/
def split_tab : List Char → List (List Char)
  | [] => [[]]
  | c :: rest =>
    let r := split_tab rest
    if c = '\t' then [] :: r
    else
      match r with
      | [] => [[c]]
      | f :: fs => (c :: f) :: fs

/-- Parse a decimal natural number from a character list; fails on an empty or
non-digit field. -/
def parse_nat (cs : List Char) : Option Nat :=
  if cs = [] then none
  else if cs.all Char.isDigit then
    some (cs.foldl (fun n c => n * 10 + (c.toNat - 48)) 0)
  else none

/-- Modelled from the spec: normalised code of one allele character over
`A,C,G,T,N,…`. -/
def base_code (c : Char) : Nat :=
  if c = 'A' then 1 else if c = 'C' then 2 else if c = 'G' then 3
  else if c = 'T' then 4 else if c = 'N' then 5 else 0

/-- Modelled from the spec: the allele string packed into one enumerated
code. -/
def allele_code (cs : List Char) : Nat :=
  cs.foldl (fun a c => a * 8 + base_code c) 0

/-- Modelled from the spec: apply the optional `name_prefix_map` to a contig
name during BED parsing (e.g. strip `chr`): the first mapping whose key is a
leading segment of the name replaces that segment. -/
def apply_pref_map (pm : List (String × String)) (name : String) : String :=
  match pm.find? (fun p => starts_with name.data p.1.data) with
  | some p => String.mk (p.2.data ++ name.data.drop p.1.data.length)
  | none => name

/-- Modelled from the spec: `snp_from_bed` / `SnpBuilder` (snp/read_bed.rs is
absent from the slice).  Parses one BED record: required fields `chrom`,
`start`, `end`, `name`; `end` must equal `start + 1`; the name is truncated to
31 bytes; the prefix map is applied to the contig name and unknown contigs are
dropped; the optional allele string (first extra column) is packed into the
allele code.  Malformed or dropped records yield nothing. -/
def snp_from_bed (conf : Config) (line : String) : Option Snp :=
  match split_tab line.data with
  | chrom :: startF :: endF :: nameF :: rest =>
    match parse_nat startF, parse_nat endF with
    | some s, some e =>
      if e = s + 1 then
        let cname := apply_pref_map conf.prefMap (String.mk chrom)
        if conf.contigs.contains cname then
          some { raw := { pos := s, name := String.mk (nameF.take 31),
                          alleles := allele_code ((rest.headD []).take 31),
                          mafFlags := 0 },
                 contig := cname }
        else none
      else none
    | _, _ => none
  | _ => none

/-! ### Reader stage (process.rs lines 37–65) -/

/-- A log event emitted by a worker (`info!`, `warn!`, `debug!`). -/
inductive LogEvent where
  | info (msg : String)
  | warn (msg : String)
  | debugMsg (msg : String)
deriving DecidableEq, Repr

/-- Returns `true` exactly on warn-level events. -/
def LogEvent.isWarn : LogEvent → Bool
  | .warn _ => true
  | _ => false

/-- One input file as seen by a reader: its name and the sequence of
`read_line` results (a line, or an I/O error; end of file at list end). -/
instance (ε α : Type) [DecidableEq ε] [DecidableEq α] : DecidableEq (Except ε α) := by
  intro x y
  cases x <;> cases y <;> first
    | { rename_i a b
        exact if h : a = b then isTrue (by rw [h]) else
          isFalse (by intro hc; cases hc; exact h rfl) }
    | exact isFalse (by intro h; cases h)

structure BedFile where
  fname : String
  lines : List (Except String String)
deriving DecidableEq, Repr

/-- Returns `true` exactly on successfully read lines. -/
def lineOk : Except String String → Bool
  | .ok _ => true
  | .error _ => false

/-- The read loop of `read_bed_file` (process.rs lines 42–55): process lines in
order, skipping `track` lines, feeding the rest through `snp_from_bed` into the
reader buffer; stop with `Ok` at end of input and return the error at the first
failed read.  Returns the updated buffer, the blocks sent, and the result. -/
def read_bed_loop (conf : Config) (rbuf : ReaderBuf) :
    List (Except String String) → ReaderBuf × List SnpBlock × Except String Unit
  | [] => (rbuf, [], Except.ok ())
  | Except.error e :: _ => (rbuf, [], Except.error e)
  | Except.ok line :: rest =>
    if str_starts_with line "track" then read_bed_loop conf rbuf rest
    else
      match snp_from_bed conf line with
      | some snp =>
        let pr := rbuf.add_snp snp
        let r := read_bed_loop conf pr.1 rest
        (r.1, pr.2.toList ++ r.2.1, r.2.2)
      | none => read_bed_loop conf rbuf rest

/-- Result of reading one file: buffer, sent blocks, log events, and the
`io::Result` value. -/
structure ReadFileResult where
  rbuf : ReaderBuf
  blocks : List SnpBlock
  logs : List LogEvent
  result : Except String Unit
deriving Repr

/-- Function `read_bed_file` from process.rs: logs the opening `info!`, runs the read
loop, and logs the closing `info!` only when the loop finished without error
(on error the function returns early with `Err`). -/
def read_bed_file (conf : Config) (f : BedFile) (rbuf : ReaderBuf) : ReadFileResult :=
  let r := read_bed_loop conf rbuf f.lines
  { rbuf := r.1, blocks := r.2.1,
    logs := LogEvent.info ("Reading from " ++ f.fname) ::
      (match r.2.2 with
       | Except.ok _ => [LogEvent.info ("Finished reading from " ++ f.fname)]
       | Except.error _ => []),
    result := r.2.2 }

/-- Result of one reader worker: its final buffer (dropped at thread exit),
all blocks it sent, and its log events. -/
structure ReadThreadResult where
  rbuf : ReaderBuf
  blocks : List SnpBlock
  logs : List LogEvent
deriving Repr

/-- Function `read_bed_thread` from process.rs (lines 60–65): pull each input file in
turn and read it, discarding the per-file result (`let _ = read_bed_file(…)`);
return when the cursor is exhausted.  `files` is the sequence of files the
shared cursor yields to this worker.  Note that the final reader buffer is
returned (and in the source simply dropped) without being flushed. -/
def read_bed_thread (conf : Config) (files : List BedFile) (rbuf : ReaderBuf) :
    ReadThreadResult :=
  match files with
  | [] => { rbuf := rbuf, blocks := [], logs := [] }
  | f :: rest =>
    let r := read_bed_file conf f rbuf
    let r2 := read_bed_thread conf rest r.rbuf
    { rbuf := r2.rbuf, blocks := r.blocks ++ r2.blocks, logs := r.logs ++ r2.logs }

/-! ### Storage stage (process.rs lines 67–136) -/

/-- Modelled from the spec: the per-contig store state guarded by the binding
token (`ContigData`, contig.rs is absent from the slice).  The storage-stage
claims constrain which bin-store operations the worker invokes and in which
order, so the state records the journal of those operations: the arguments of
every `check_bins` call and the sequence of SNPs handed to `add_snp`. -/
structure ContigData where
  boundsCalls : List (Nat × Nat)
  added : List RawSnp
deriving DecidableEq, Repr

/-- Modelled from the spec: `ContigData::add_snp` ingests one SNP into the bin
store (journalled; the configuration argument is passed through as in the
source). -/
def ContigData.add_snp (d : ContigData) (s : RawSnp) (_conf : Config) : ContigData :=
  { d with added := d.added ++ [s] }

/-- Modelled from the spec: `ContigData::check_bins` ensures the bin vector
covers the given position bounds (journalled). -/
def ContigData.check_bins (d : ContigData) (mn mx : Nat) : ContigData :=
  { d with boundsCalls := d.boundsCalls ++ [(mn, mx)] }

/-- Function `store_snp_block` from process.rs: add every SNP of the block, in stored
order. -/
def store_snp_block (sb : SnpBlock) (data : ContigData) (conf : Config) : ContigData :=
  sb.snps.foldl (fun d s => d.add_snp s conf) data

/-- Models the `.unwrap()` on `SnpBlock::min_max` inside `store_thread`: the
source panics when the block is empty; blocks sent by a `ReaderBuf` are never
empty, so under the claims' hypotheses the default is never read. -/
def unwrap_min_max (o : Option (Nat × Nat)) : Nat × Nat :=
  o.getD (0, 0)

/-- One step of the fold inside the `min_max` closure of `store_thread`:
combine the running bounds with one block's unwrapped bounds. -/
def mm_step (ab : Nat × Nat) (s : SnpBlock) : Nat × Nat :=
  let mm := unwrap_min_max s.minMax
  (Nat.min ab.1 mm.1, Nat.max ab.2 mm.2)

/-- The `min_max` closure of `store_thread` (process.rs lines 78–86): fold the
per-block minima and maxima of a drained batch, starting from the first
block. -/
def min_max (v : List SnpBlock) : Option (Nat × Nat) :=
  match v with
  | [] => none
  | sb :: rest => some (rest.foldl mm_step (unwrap_min_max sb.minMax))

/-- The consume step of `store_thread` after a successful `try_bind`
(process.rs lines 100–109 and 118–127): `v` is the batch collected
non-blockingly by `try_iter`; compute its position bounds, call `check_bins`
with them, then store each block in arrival order. -/
def consume_blocks (conf : Config) (v : List SnpBlock) (data : ContigData) : ContigData :=
  match min_max v with
  | some (mn, mx) =>
    v.foldl (fun d sb => store_snp_block sb d conf) (data.check_bins mn mx)
  | none => data

/-- All SNPs of a batch, blocks in arrival order, SNPs in stored order. -/
def allSnps (v : List SnpBlock) : List RawSnp :=
  (v.map SnpBlock.snps).flatten

/-- The draining loop of `store_thread` after the shutdown signal (process.rs
lines 113–131): repeatedly call `sel.try_ready()` over the snapshot of contig
receivers and, for a ready one, `try_bind` and consume its queued blocks;
leave the loop when `try_ready` fails (no receiver has a queued block).
`queues` holds the queued blocks of each receiver in the snapshot; `sched` is
the oracle of scheduler choices: for each `try_ready` success the index
returned and whether `try_bind` succeeds.  `consumed` counts drained blocks,
so the source's `processed` flag is `consumed ≠ 0`.  Returns `none` when the
oracle is exhausted before `try_ready` fails (the sweep has not completed);
otherwise the final queues and the drained-block count. -/
def drain_sweep : List (Nat × Bool) → List (List SnpBlock) → Nat →
    Option (List (List SnpBlock) × Nat)
  | sched, queues, consumed =>
    if queues.all List.isEmpty then some (queues, consumed)
    else
      match sched with
      | [] => none
      | (i, b) :: rest =>
        let q := (queues[i]?).getD []
        if q.isEmpty then drain_sweep rest queues consumed
        else if b then drain_sweep rest (queues.set i []) (consumed + q.length)
        else drain_sweep rest queues consumed

/-! ### Coordinator (process.rs lines 138–177) -/

/-- One observable action of the coordinator `process`. -/
inductive CoordEvent where
  | spawnReader (i : Nat) (readerLimit : Nat)
  | spawnStorer (i : Nat) (chanCap : Nat)
  | joinReader (i : Nat)
  | sendDrain (i : Nat)
  | joinStorer (i : Nat)
  | getStats
  | printStats
  | writeIndex
deriving DecidableEq, Repr

/-- Returns `true` exactly on reader-spawn events. -/
def CoordEvent.isSpawnReader : CoordEvent → Bool
  | .spawnReader _ _ => true
  | _ => false

/-- Returns `true` exactly on storer-spawn events. -/
def CoordEvent.isSpawnStorer : CoordEvent → Bool
  | .spawnStorer _ _ => true
  | _ => false

/-- The action trace of `process` (process.rs lines 151–177): spawn
`min(threads, |files|)` readers each with a `ReaderBuf` of limit 256, spawn
`threads` storers each with a fresh bounded control channel of capacity 1,
join the readers, send one drain signal per storer, join the storers, then
read and print the statistics.  Each loop of the source is modelled as a fold
appending its events. -/
def process_trace (conf : Config) (files : List String) : List CoordEvent :=
  let n_readers := Nat.min conf.threads files.length
  let tr1 := (List.range n_readers).foldl
    (fun acc i => acc ++ [CoordEvent.spawnReader i 256]) []
  let n_storers := conf.threads
  let tr2 := (List.range n_storers).foldl
    (fun acc i => acc ++ [CoordEvent.spawnStorer i 1]) tr1
  let tr3 := (List.range n_readers).foldl
    (fun acc i => acc ++ [CoordEvent.joinReader i]) tr2
  let tr4 := (List.range n_storers).foldl
    (fun acc i => acc ++ [CoordEvent.sendDrain i]) tr3
  let tr5 := (List.range n_storers).foldl
    (fun acc i => acc ++ [CoordEvent.joinStorer i]) tr4
  tr5 ++ [CoordEvent.getStats, CoordEvent.printStats]

/-- The reader-buffer limit `process` hands to every reader worker
(process.rs line 159: `ReaderBuf::new(256)`). -/
def process_reader_limit (_conf : Config) : Nat := 256

/-- The spec's reader-buffer flush threshold: the configured `block_limit`,
defaulting to 256 when the key is absent (spec §6).  Stated from the spec's
words to compare against `process_reader_limit`. -/
def spec_block_limit (conf : Config) : Nat :=
  conf.blockLimit.getD 256

/-- How one worker thread ends: a normal return or a panic with a payload
message. -/
inductive WorkerEnd where
  | finished
  | panicked (msg : String)
deriving DecidableEq, Repr

/-- The value `process` produces, as written: `Ok(())` (no statistics are
returned; they are printed), or a panic of `process` itself propagated by
`join().unwrap()`.  The source has no path returning `Err` after the spawns. -/
inductive ProcOutcome where
  | okUnit
  | errMsg (msg : String)
  | panicked (msg : String)
deriving DecidableEq, Repr

/-- Returns `true` exactly on the `Err` outcome. -/
def ProcOutcome.isErr : ProcOutcome → Bool
  | .errMsg _ => true
  | _ => false

/-- The first panic among joined workers, in join order. -/
def firstPanic : List WorkerEnd → Option String
  | [] => none
  | .finished :: rest => firstPanic rest
  | .panicked m :: _ => some m

/-- The outcome of `process` (process.rs lines 171–176) as a function of how
its workers end: readers are joined first with `join().unwrap()`, so the first
reader panic re-panics in `process`; then the storers likewise; with no panics
`process` prints the statistics and returns `Ok(())`. -/
def process_outcome (readers storers : List WorkerEnd) : ProcOutcome :=
  match firstPanic readers with
  | some m => ProcOutcome.panicked m
  | none =>
    match firstPanic storers with
    | some m => ProcOutcome.panicked m
    | none => ProcOutcome.okUnit

/-! ### Lemmas about the bucket operations -/

theorem mem_updateBucket {k : Contig} {v : List RawSnp} {l : List (Contig × List RawSnp)}
    {p : Contig × List RawSnp} (h : p ∈ updateBucket k v l) : p = (k, v) ∨ p ∈ l := by
  induction l with
  | nil => simpa [updateBucket] using h
  | cons q rest ih =>
    by_cases hq : q.1 = k
    · simp only [updateBucket, if_pos hq, List.mem_cons] at h
      rcases h with h | h
      · exact Or.inl h
      · exact Or.inr (List.mem_cons_of_mem _ h)
    · simp only [updateBucket, if_neg hq, List.mem_cons] at h
      rcases h with h | h
      · exact Or.inr (by simp [h])
      · rcases ih h with h2 | h2
        · exact Or.inl h2
        · exact Or.inr (List.mem_cons_of_mem _ h2)

theorem mem_eraseKey {k : Contig} {l : List (Contig × List RawSnp)}
    {p : Contig × List RawSnp} (h : p ∈ eraseKey k l) : p ∈ l := by
  induction l with
  | nil => simp [eraseKey] at h
  | cons q rest ih =>
    by_cases hq : q.1 = k
    · simp only [eraseKey, if_pos hq] at h
      exact List.mem_cons_of_mem _ (ih h)
    · simp only [eraseKey, if_neg hq, List.mem_cons] at h
      rcases h with h | h
      · simp [h]
      · exact List.mem_cons_of_mem _ (ih h)

theorem lookupBucket_eraseKey (k : Contig) (l : List (Contig × List RawSnp)) :
    lookupBucket k (eraseKey k l) = none := by
  induction l with
  | nil => rfl
  | cons q rest ih =>
    by_cases hq : q.1 = k
    · simp only [eraseKey, if_pos hq]; exact ih
    · simp only [eraseKey, if_neg hq, lookupBucket, ih, if_neg hq]

theorem lookupBucket_mem {k : Contig} {l : List (Contig × List RawSnp)}
    {v : List RawSnp} (h : lookupBucket k l = some v) : (k, v) ∈ l := by
  induction l with
  | nil => simp [lookupBucket] at h
  | cons q rest ih =>
    by_cases hq : q.1 = k
    · simp only [lookupBucket, if_pos hq, Option.some.injEq] at h
      subst h
      have : q = (k, q.2) := by
        cases q; simp_all
      simp [← this]
    · simp only [lookupBucket, if_neg hq] at h
      exact List.mem_cons_of_mem _ (ih h)

/-! ### The reader-buffer invariant -/

theorem add_snp_preserves_bound (rb : ReaderBuf) (s : Snp)
    (hinv : ∀ p ∈ rb.buffer, (p.2).length ≤ rb.limit) :
    (∀ p ∈ (rb.add_snp s).1.buffer, (p.2).length ≤ rb.limit) ∧
    (rb.add_snp s).1.limit = rb.limit := by
  by_cases hle : rb.limit ≤ ((lookupBucket s.contig rb.buffer).getD [] ++ [s.raw]).length
  · simp only [ReaderBuf.add_snp, if_pos hle]
    exact ⟨fun p hp => hinv p (mem_eraseKey hp), by trivial⟩
  · simp only [ReaderBuf.add_snp, if_neg hle]
    refine ⟨fun p hp => ?_, by trivial⟩
    rcases mem_updateBucket hp with h | h
    · subst h
      exact Nat.le_of_lt (Nat.lt_of_not_le hle)
    · exact hinv p h

theorem addAll_preserves_bound (snps : List Snp) : ∀ (rb : ReaderBuf),
    (∀ p ∈ rb.buffer, (p.2).length ≤ rb.limit) →
    (∀ p ∈ (rb.addAll snps).1.buffer, (p.2).length ≤ rb.limit) ∧
    (rb.addAll snps).1.limit = rb.limit := by
  induction snps with
  | nil => intro rb hinv; exact ⟨hinv, rfl⟩
  | cons s rest ih =>
    intro rb hinv
    have h1 := add_snp_preserves_bound rb s hinv
    have h2 := ih (rb.add_snp s).1 (by rw [h1.2]; exact h1.1)
    simp only [ReaderBuf.addAll]
    exact ⟨by rw [← h1.2]; exact h2.1, by rw [h2.2, h1.2]⟩

/-- Claim C2: for every `ReaderBuf` and every sequence of `add_snp` calls, no
per-contig bucket ever exceeds `LIMIT` entries, and when the bucket appended
to reaches `LIMIT` it is removed from the buffer and dispatched as one
`SnpBlock` to its contig's channel within the same `add_snp` call. -/
theorem readerbuf_no_bucket_exceeds_limit (rb : ReaderBuf) (snps : List Snp) (snp : Snp)
    (hinv : ∀ p ∈ rb.buffer, (p.2).length ≤ rb.limit) :
    (∀ p ∈ (rb.addAll snps).1.buffer, (p.2).length ≤ rb.limit) ∧
    (rb.limit ≤ ((lookupBucket snp.contig rb.buffer).getD []).length + 1 →
      lookupBucket snp.contig ((rb.add_snp snp).1).buffer = none ∧
      (rb.add_snp snp).2 =
        some ⟨snp.contig, (lookupBucket snp.contig rb.buffer).getD [] ++ [snp.raw]⟩) := by
  refine ⟨(addAll_preserves_bound snps rb hinv).1, fun hflush => ?_⟩
  have hle : rb.limit ≤ ((lookupBucket snp.contig rb.buffer).getD [] ++ [snp.raw]).length := by
    simpa using hflush
  simp only [ReaderBuf.add_snp, if_pos hle]
  exact ⟨lookupBucket_eraseKey _ _, by trivial⟩

/-- Concrete reader buffer for the claim-C2 witness: one bucket holding one
SNP, with limit 2. -/
def rbW : ReaderBuf :=
  { buffer := [("chr1", [⟨7, "a", 0, 0⟩])], limit := 2 }

/-- Concrete SNP for the claim-C2 witness. -/
def snpW : Snp := ⟨⟨9, "b", 0, 0⟩, "chr1"⟩

/-- Witness for C2 at a concrete input: a bucket holding one SNP with limit 2
is flushed by the next `add_snp` for that contig. -/
theorem readerbuf_no_bucket_exceeds_limit_witness :
    (∀ p ∈ rbW.buffer, (p.2).length ≤ rbW.limit) ∧
    ((∀ p ∈ (rbW.addAll [snpW]).1.buffer, (p.2).length ≤ rbW.limit) ∧
     (rbW.limit ≤ ((lookupBucket snpW.contig rbW.buffer).getD []).length + 1 →
       lookupBucket snpW.contig ((rbW.add_snp snpW).1).buffer = none ∧
       (rbW.add_snp snpW).2 =
         some ⟨snpW.contig, (lookupBucket snpW.contig rbW.buffer).getD [] ++ [snpW.raw]⟩)) :=
  ⟨by decide, readerbuf_no_bucket_exceeds_limit rbW [snpW] snpW (by decide)⟩

/-! ### Blocks sent by a reader buffer: non-empty and single-contig -/

theorem minMax_isSome_of_ne_nil {sb : SnpBlock} (h : sb.snps ≠ []) : sb.minMax ≠ none := by
  cases hs : sb.snps with
  | nil => exact absurd hs h
  | cons s rest => simp [SnpBlock.minMax, hs]

theorem mem_append_singleton_sub {α : Type} {x : α} {l : List α} {s : α} {rest : List α}
    (h : x ∈ l ++ [s]) : x ∈ l ++ s :: rest := by
  rcases List.mem_append.mp h with h | h
  · exact List.mem_append_left _ h
  · simp only [List.mem_singleton] at h
    subst h
    exact List.mem_append_right _ (List.mem_cons_self _ _)

theorem addAll_blocks_sound (snps : List Snp) : ∀ (rb : ReaderBuf) (added : List Snp),
    (∀ p ∈ rb.buffer, ∀ r ∈ p.2, Snp.mk r p.1 ∈ added) →
    (∀ sb ∈ (rb.addAll snps).2, sb.snps ≠ [] ∧
        ∀ r ∈ sb.snps, Snp.mk r sb.contig ∈ added ++ snps) ∧
    (∀ p ∈ (rb.addAll snps).1.buffer, ∀ r ∈ p.2, Snp.mk r p.1 ∈ added ++ snps) := by
  induction snps with
  | nil =>
    intro rb added hcoh
    constructor
    · intro sb hsb
      simp [ReaderBuf.addAll] at hsb
    · intro p hp r hr
      simpa using hcoh p hp r hr
  | cons s rest ih =>
    intro rb added hcoh
    have hold : ∀ r ∈ (lookupBucket s.contig rb.buffer).getD [],
        Snp.mk r s.contig ∈ added := by
      cases hl : lookupBucket s.contig rb.buffer with
      | none => intro r hr; simp at hr
      | some old =>
        intro r hr
        exact hcoh _ (lookupBucket_mem hl) r (by simpa using hr)
    have hnew : ∀ r ∈ (lookupBucket s.contig rb.buffer).getD [] ++ [s.raw],
        Snp.mk r s.contig ∈ added ++ [s] := by
      intro r hr
      rcases List.mem_append.mp hr with h | h
      · exact List.mem_append_left _ (hold r h)
      · simp only [List.mem_singleton] at h
        subst h
        have he : Snp.mk s.raw s.contig = s := rfl
        rw [he]
        exact List.mem_append_right _ (List.mem_cons_self _ _)
    have hstep : (∀ p ∈ (rb.add_snp s).1.buffer, ∀ r ∈ p.2, Snp.mk r p.1 ∈ added ++ [s]) ∧
        (∀ sb, (rb.add_snp s).2 = some sb → sb.snps ≠ [] ∧
          ∀ r ∈ sb.snps, Snp.mk r sb.contig ∈ added ++ [s]) := by
      by_cases hle : rb.limit ≤ ((lookupBucket s.contig rb.buffer).getD [] ++ [s.raw]).length
      · simp only [ReaderBuf.add_snp, if_pos hle]
        constructor
        · intro p hp r hr
          exact List.mem_append_left _ (hcoh p (mem_eraseKey hp) r hr)
        · intro sb hsb
          injection hsb with hsb
          subst hsb
          exact ⟨by simp, hnew⟩
      · simp only [ReaderBuf.add_snp, if_neg hle]
        constructor
        · intro p hp r hr
          rcases mem_updateBucket hp with h | h
          · subst h
            exact hnew r hr
          · exact List.mem_append_left _ (hcoh p h r hr)
        · intro sb hsb
          simp at hsb
    have hrest := ih (rb.add_snp s).1 (added ++ [s]) hstep.1
    simp only [List.append_assoc, List.singleton_append] at hrest
    simp only [ReaderBuf.addAll]
    constructor
    · intro sb hsb
      rcases List.mem_append.mp hsb with h | h
      · cases hob : (rb.add_snp s).2 with
        | none => rw [hob] at h; simp at h
        | some b =>
          rw [hob] at h
          simp only [Option.toList_some, List.mem_singleton] at h
          subst h
          have hb := hstep.2 sb hob
          exact ⟨hb.1, fun r hr => mem_append_singleton_sub (hb.2 r hr)⟩
      · exact hrest.1 sb h
    · exact hrest.2

/-- Claim C10: every `SnpBlock` dispatched by a `ReaderBuf` is non-empty and
carries SNPs of a single contig (every SNP in the block was added under the
block's contig handle); consequently `sb.min_max().unwrap()` inside the
storage worker never sees `None` on such a block. -/
theorem snpblock_nonempty_single_contig (limit : Nat) (snps : List Snp) (sb : SnpBlock)
    (hmem : sb ∈ ((ReaderBuf.new limit).addAll snps).2) :
    sb.snps ≠ [] ∧ (∀ r ∈ sb.snps, Snp.mk r sb.contig ∈ snps) ∧ sb.minMax ≠ none := by
  have h := (addAll_blocks_sound snps (ReaderBuf.new limit) []
    (by intro p hp; simp [ReaderBuf.new] at hp)).1 sb hmem
  simp only [List.nil_append] at h
  exact ⟨h.1, h.2, minMax_isSome_of_ne_nil h.1⟩

/-- Witness for C10 at a concrete input: with limit 1, adding one SNP emits a
block containing it. -/
theorem snpblock_nonempty_single_contig_witness :
    ((⟨"chr1", [⟨5, "x", 0, 0⟩]⟩ : SnpBlock) ∈
      ((ReaderBuf.new 1).addAll [⟨⟨5, "x", 0, 0⟩, "chr1"⟩]).2) ∧
    ((⟨"chr1", [⟨5, "x", 0, 0⟩]⟩ : SnpBlock).snps ≠ [] ∧
      (∀ r ∈ (⟨"chr1", [⟨5, "x", 0, 0⟩]⟩ : SnpBlock).snps,
        Snp.mk r (⟨"chr1", [⟨5, "x", 0, 0⟩]⟩ : SnpBlock).contig ∈
          [⟨⟨5, "x", 0, 0⟩, "chr1"⟩]) ∧
      (⟨"chr1", [⟨5, "x", 0, 0⟩]⟩ : SnpBlock).minMax ≠ none) :=
  ⟨by decide, snpblock_nonempty_single_contig 1 [⟨⟨5, "x", 0, 0⟩, "chr1"⟩]
    ⟨"chr1", [⟨5, "x", 0, 0⟩]⟩ (by decide)⟩

/-! ### The storage worker's consume step: bounds then ordered adds -/

/-- Predicate stating that `mn` and `mx` are the minimum and maximum of the list `ps`. -/
def IsMinMax (ps : List Nat) (mn mx : Nat) : Prop :=
  mn ∈ ps ∧ mx ∈ ps ∧ ∀ p ∈ ps, mn ≤ p ∧ p ≤ mx

theorem IsMinMax.combine {ps qs : List Nat} {a b c d : Nat}
    (h1 : IsMinMax ps a b) (h2 : IsMinMax qs c d) :
    IsMinMax (ps ++ qs) (Nat.min a c) (Nat.max b d) := by
  obtain ⟨ha, hb, hab⟩ := h1
  obtain ⟨hc, hd, hcd⟩ := h2
  refine ⟨?_, ?_, ?_⟩
  · rcases Nat.le_total a c with h | h
    · have hm : Nat.min a c = a := by simp [Nat.min_def, h]
      rw [hm]; exact List.mem_append_left _ ha
    · have hm : Nat.min a c = c := by simp [Nat.min_def]; omega
      rw [hm]; exact List.mem_append_right _ hc
  · rcases Nat.le_total b d with h | h
    · have hm : Nat.max b d = d := by simp [Nat.max_def, h]
      rw [hm]; exact List.mem_append_right _ hd
    · have hm : Nat.max b d = b := by simp [Nat.max_def]; omega
      rw [hm]; exact List.mem_append_left _ hb
  · intro p hp
    rcases List.mem_append.mp hp with h | h
    · exact ⟨Nat.le_trans (Nat.min_le_left _ _) (hab p h).1,
        Nat.le_trans (hab p h).2 (Nat.le_max_left _ _)⟩
    · exact ⟨Nat.le_trans (Nat.min_le_right _ _) (hcd p h).1,
        Nat.le_trans (hcd p h).2 (Nat.le_max_right _ _)⟩

theorem pos_fold_spec (l : List RawSnp) : ∀ (a b : Nat) (ps : List Nat),
    IsMinMax ps a b →
    IsMinMax (ps ++ l.map RawSnp.pos) (l.foldl pos_step (a, b)).1
      (l.foldl pos_step (a, b)).2 := by
  induction l with
  | nil => intro a b ps h; simpa using h
  | cons r rest ih =>
    intro a b ps h
    have hr : IsMinMax [r.pos] r.pos r.pos := by
      refine ⟨List.mem_singleton_self _, List.mem_singleton_self _, ?_⟩
      intro p hp
      simp only [List.mem_singleton] at hp
      subst hp
      exact ⟨Nat.le_refl _, Nat.le_refl _⟩
    have h2 := ih (Nat.min a r.pos) (Nat.max b r.pos) (ps ++ [r.pos]) (h.combine hr)
    simp only [List.append_assoc, List.singleton_append] at h2
    simpa [pos_step] using h2

/-- For a non-empty block, `min_max().unwrap()` yields exactly the position
bounds of the block. -/
theorem block_unwrap_min_max {sb : SnpBlock} (h : sb.snps ≠ []) :
    IsMinMax (sb.snps.map RawSnp.pos) (unwrap_min_max sb.minMax).1
      (unwrap_min_max sb.minMax).2 := by
  cases hs : sb.snps with
  | nil => exact absurd hs h
  | cons s rest =>
    have h0 : IsMinMax [s.pos] s.pos s.pos := by
      refine ⟨List.mem_singleton_self _, List.mem_singleton_self _, ?_⟩
      intro p hp
      simp only [List.mem_singleton] at hp
      subst hp
      exact ⟨Nat.le_refl _, Nat.le_refl _⟩
    have h2 := pos_fold_spec rest s.pos s.pos [s.pos] h0
    simp only [List.singleton_append] at h2
    simpa [SnpBlock.minMax, hs, unwrap_min_max] using h2

theorem mm_fold_spec (v : List SnpBlock) : ∀ (a b : Nat) (ps : List Nat),
    IsMinMax ps a b → (∀ sb ∈ v, sb.snps ≠ []) →
    IsMinMax (ps ++ (allSnps v).map RawSnp.pos) (v.foldl mm_step (a, b)).1
      (v.foldl mm_step (a, b)).2 := by
  induction v with
  | nil => intro a b ps h _; simpa [allSnps] using h
  | cons sb rest ih =>
    intro a b ps h hv
    have hsb := block_unwrap_min_max (hv sb (List.mem_cons_self _ _))
    have h2 := ih (Nat.min a (unwrap_min_max sb.minMax).1)
      (Nat.max b (unwrap_min_max sb.minMax).2)
      (ps ++ sb.snps.map RawSnp.pos) (h.combine hsb)
      (fun s hs => hv s (List.mem_cons_of_mem _ hs))
    simp only [List.append_assoc] at h2
    have he : allSnps (sb :: rest) = sb.snps ++ allSnps rest := by
      simp [allSnps]
    rw [he, List.map_append]
    simpa [mm_step] using h2

theorem store_snp_block_spec (conf : Config) (sb : SnpBlock) : ∀ (d : ContigData),
    store_snp_block sb d conf = ⟨d.boundsCalls, d.added ++ sb.snps⟩ := by
  have hfold : ∀ (l : List RawSnp) (d : ContigData),
      l.foldl (fun d s => d.add_snp s conf) d = ⟨d.boundsCalls, d.added ++ l⟩ := by
    intro l
    induction l with
    | nil => intro d; simp
    | cons s rest ih =>
      intro d
      rw [List.foldl_cons, ih]
      simp [ContigData.add_snp]
  intro d
  exact hfold sb.snps d

theorem consume_fold_spec (conf : Config) (v : List SnpBlock) : ∀ (d : ContigData),
    v.foldl (fun d sb => store_snp_block sb d conf) d =
      ⟨d.boundsCalls, d.added ++ allSnps v⟩ := by
  induction v with
  | nil => intro d; simp [allSnps]
  | cons sb rest ih =>
    intro d
    rw [List.foldl_cons, store_snp_block_spec, ih]
    simp [allSnps]

/-- Claim C5: when a storage worker binds a ready contig, it drains the queued
blocks, computes the minimum and maximum SNP position across all of them,
calls the bin-store bounds check with exactly that pair, and then adds every
SNP, blocks in arrival order and SNPs within a block in stored order. -/
theorem store_consume_bounds_then_add (conf : Config) (v : List SnpBlock)
    (data : ContigData) (hne : v ≠ []) (hblocks : ∀ sb ∈ v, sb.snps ≠ []) :
    ∃ mn mx, min_max v = some (mn, mx) ∧
      IsMinMax ((allSnps v).map RawSnp.pos) mn mx ∧
      consume_blocks conf v data =
        ⟨data.boundsCalls ++ [(mn, mx)], data.added ++ allSnps v⟩ := by
  cases v with
  | nil => exact absurd rfl hne
  | cons sb rest =>
    have hsb := block_unwrap_min_max (hblocks sb (List.mem_cons_self _ _))
    have hfold := mm_fold_spec rest (unwrap_min_max sb.minMax).1
      (unwrap_min_max sb.minMax).2 (sb.snps.map RawSnp.pos) hsb
      (fun s hs => hblocks s (List.mem_cons_of_mem _ hs))
    refine ⟨(rest.foldl mm_step (unwrap_min_max sb.minMax)).1,
      (rest.foldl mm_step (unwrap_min_max sb.minMax)).2, ?_, ?_, ?_⟩
    · simp [min_max]
    · have he : allSnps (sb :: rest) = sb.snps ++ allSnps rest := by
        simp [allSnps]
      rw [he, List.map_append]
      exact hfold
    · simp only [consume_blocks, min_max]
      rw [consume_fold_spec]
      simp [ContigData.check_bins]

/-- Concrete configuration shared by several witnesses. -/
def confW : Config := ⟨1, none, ["chr1"], []⟩

/-- Witness for C5 at a concrete input: two queued blocks for one contig. -/
theorem store_consume_bounds_then_add_witness :
    (([⟨"chr1", [⟨5, "a", 0, 0⟩]⟩, ⟨"chr1", [⟨3, "b", 0, 0⟩, ⟨9, "c", 0, 0⟩]⟩] :
        List SnpBlock) ≠ [] ∧
      (∀ sb ∈ ([⟨"chr1", [⟨5, "a", 0, 0⟩]⟩,
          ⟨"chr1", [⟨3, "b", 0, 0⟩, ⟨9, "c", 0, 0⟩]⟩] : List SnpBlock), sb.snps ≠ [])) ∧
    (∃ mn mx,
      min_max [⟨"chr1", [⟨5, "a", 0, 0⟩]⟩, ⟨"chr1", [⟨3, "b", 0, 0⟩, ⟨9, "c", 0, 0⟩]⟩] =
        some (mn, mx) ∧
      IsMinMax ((allSnps [⟨"chr1", [⟨5, "a", 0, 0⟩]⟩,
        ⟨"chr1", [⟨3, "b", 0, 0⟩, ⟨9, "c", 0, 0⟩]⟩]).map RawSnp.pos) mn mx ∧
      consume_blocks confW
          [⟨"chr1", [⟨5, "a", 0, 0⟩]⟩, ⟨"chr1", [⟨3, "b", 0, 0⟩, ⟨9, "c", 0, 0⟩]⟩]
          ⟨[], []⟩ =
        ⟨[] ++ [(mn, mx)], [] ++ allSnps [⟨"chr1", [⟨5, "a", 0, 0⟩]⟩,
          ⟨"chr1", [⟨3, "b", 0, 0⟩, ⟨9, "c", 0, 0⟩]⟩]⟩) :=
  ⟨⟨by decide, by decide⟩,
    store_consume_bounds_then_add confW
      [⟨"chr1", [⟨5, "a", 0, 0⟩]⟩, ⟨"chr1", [⟨3, "b", 0, 0⟩, ⟨9, "c", 0, 0⟩]⟩]
      ⟨[], []⟩ (by decide) (by decide)⟩

/-! ### The draining sweep exits only with nothing queued -/

theorem drain_sweep_nil_eq (queues : List (List SnpBlock)) (consumed : Nat) :
    drain_sweep [] queues consumed =
      if queues.all List.isEmpty then some (queues, consumed) else none := by
  rw [drain_sweep.eq_def]

theorem drain_sweep_cons_eq (i : Nat) (b : Bool) (rest : List (Nat × Bool))
    (queues : List (List SnpBlock)) (consumed : Nat) :
    drain_sweep ((i, b) :: rest) queues consumed =
      if queues.all List.isEmpty then some (queues, consumed)
      else
        if ((queues[i]?).getD []).isEmpty then drain_sweep rest queues consumed
        else if b then drain_sweep rest (queues.set i []) (consumed + ((queues[i]?).getD []).length)
        else drain_sweep rest queues consumed := by
  rw [drain_sweep.eq_def]

theorem drain_sweep_spec (sched : List (Nat × Bool)) :
    ∀ (queues qs : List (List SnpBlock)) (consumed c : Nat),
    drain_sweep sched queues consumed = some (qs, c) →
    (∀ q ∈ qs, q = []) ∧ consumed ≤ c ∧ (c = consumed → qs = queues) := by
  induction sched with
  | nil =>
    intro queues qs consumed c h
    rw [drain_sweep_nil_eq] at h
    by_cases he : queues.all List.isEmpty
    · rw [if_pos he] at h
      injection h with h
      injection h with h1 h2
      subst h1
      subst h2
      refine ⟨?_, Nat.le_refl _, fun _ => rfl⟩
      intro q hq
      simpa using (List.all_eq_true.mp he q hq)
    · rw [if_neg he] at h
      exact absurd h (by simp)
  | cons p rest ih =>
    intro queues qs consumed c h
    obtain ⟨i, b⟩ := p
    rw [drain_sweep_cons_eq] at h
    by_cases he : queues.all List.isEmpty
    · rw [if_pos he] at h
      injection h with h
      injection h with h1 h2
      subst h1
      subst h2
      refine ⟨?_, Nat.le_refl _, fun _ => rfl⟩
      intro q hq
      simpa using (List.all_eq_true.mp he q hq)
    · rw [if_neg he] at h
      by_cases hqe : ((queues[i]?).getD []).isEmpty
      · rw [if_pos hqe] at h
        exact ih queues qs consumed c h
      · rw [if_neg hqe] at h
        by_cases hb : b = true
        · rw [if_pos hb] at h
          have hrec := ih _ qs _ c h
          have hlen : 1 ≤ ((queues[i]?).getD []).length := by
            cases hql : (queues[i]?).getD [] with
            | nil => rw [hql] at hqe; exact absurd rfl hqe
            | cons x xs => simp
          refine ⟨hrec.1, ?_, ?_⟩
          · omega
          · intro hc
            exfalso
            omega
        · rw [if_neg hb] at h
          exact ih queues qs consumed c h

/-- Claim C6: after the drain signal, the storage worker leaves its loop only
when a complete non-blocking sweep consumes zero blocks (`c = 0`, the source's
`processed` flag is false) and every receiver it observes reports empty; a
completed sweep always ends with all observed queues empty, and a zero-consume
sweep leaves the queues untouched, so the worker never exits while an
observable receiver still holds queued blocks. -/
theorem store_drain_exit (sched : List (Nat × Bool)) (queues qs : List (List SnpBlock))
    (c : Nat) (h : drain_sweep sched queues 0 = some (qs, c)) :
    (∀ q ∈ qs, q = []) ∧ (c = 0 → qs = queues ∧ ∀ q ∈ queues, q = []) := by
  have hs := drain_sweep_spec sched queues qs 0 c h
  refine ⟨hs.1, fun hc => ?_⟩
  have hq := hs.2.2 hc
  exact ⟨hq, by rw [← hq]; exact hs.1⟩

/-- Witness for C6 at a concrete input: a sweep over two empty receivers
completes at once with zero blocks consumed. -/
theorem store_drain_exit_witness :
    (drain_sweep [] [[], []] 0 = some ([[], []], 0)) ∧
    ((∀ q ∈ ([[], []] : List (List SnpBlock)), q = []) ∧
      (0 = 0 → ([[], []] : List (List SnpBlock)) = [[], []] ∧
        ∀ q ∈ ([[], []] : List (List SnpBlock)), q = [])) :=
  ⟨by decide, store_drain_exit [] [[], []] [[], []] 0 (by decide)⟩

/-! ### Reader termination and per-file error isolation -/

/-- Claim C1 (evaluation at the failing input): a reader that buffered one SNP
below the flush limit terminates with the SNP still in its `ReaderBuf` and
with no `SnpBlock` ever sent — the source's `read_bed_thread` returns without
flushing the remaining buckets, so the buffered SNP is lost. -/
theorem reader_termination_drops_buffered_snps :
    (read_bed_thread ⟨1, none, ["chr1"], []⟩
      [⟨"snps.bed", [Except.ok "chr1\t100\t101\trs1"]⟩] (ReaderBuf.new 256)).blocks = [] ∧
    (read_bed_thread ⟨1, none, ["chr1"], []⟩
      [⟨"snps.bed", [Except.ok "chr1\t100\t101\trs1"]⟩] (ReaderBuf.new 256)).rbuf.buffer =
      [("chr1", [⟨100, "rs1", 0, 0⟩])] := by
  constructor
  · decide
  · decide

theorem read_bed_file_logs_no_warn (conf : Config) (f : BedFile) (rb : ReaderBuf) :
    (read_bed_file conf f rb).logs.countP LogEvent.isWarn = 0 := by
  simp only [read_bed_file]
  cases (read_bed_loop conf rb f.lines).2.2 with
  | ok u => simp [LogEvent.isWarn]
  | error e => simp [LogEvent.isWarn]

theorem read_bed_thread_logs_no_warn (conf : Config) (files : List BedFile) :
    ∀ (rb : ReaderBuf),
    (read_bed_thread conf files rb).logs.countP LogEvent.isWarn = 0 := by
  induction files with
  | nil => intro rb; simp [read_bed_thread]
  | cons f rest ih =>
    intro rb
    simp only [read_bed_thread, List.countP_append]
    rw [read_bed_file_logs_no_warn, ih]

theorem read_bed_loop_stops_at_error (conf : Config) (good : List (Except String String)) :
    ∀ (rb : ReaderBuf) (junk : List (Except String String)) (e : String),
    (∀ l ∈ good, lineOk l = true) →
    read_bed_loop conf rb (good ++ Except.error e :: junk) =
      ((read_bed_loop conf rb good).1, (read_bed_loop conf rb good).2.1,
        Except.error e) := by
  induction good with
  | nil =>
    intro rb junk e _
    simp [read_bed_loop]
  | cons l rest ih =>
    intro rb junk e hg
    cases l with
    | error e2 =>
      have := hg (Except.error e2) (List.mem_cons_self _ _)
      simp [lineOk] at this
    | ok line =>
      have hrest : ∀ l ∈ rest, lineOk l = true :=
        fun l hl => hg l (List.mem_cons_of_mem _ hl)
      by_cases ht : str_starts_with line "track"
      · simp only [List.cons_append, read_bed_loop, if_pos ht]
        exact ih rb junk e hrest
      · simp only [List.cons_append, read_bed_loop, if_neg ht]
        cases hs : snp_from_bed conf line with
        | none =>
          dsimp only
          simp only [List.append_eq]
          exact ih rb junk e hrest
        | some snp =>
          dsimp only
          simp only [List.append_eq]
          rw [ih (rb.add_snp snp).1 junk e hrest]

/-- Claim C8 counterexample at a concrete input: a file whose second read
fails is aborted at the error (its later record never reaches the buffer),
the reader moves on to the next file (whose record is dispatched), and no
warn-level message is logged anywhere — the result of `read_bed_file` is
silently discarded by `read_bed_thread`. -/
theorem read_error_never_logged_warn :
    (read_bed_thread ⟨1, none, ["chr1", "chr2"], []⟩
      [⟨"bad.bed", [Except.ok "chr1\t1\t2\ta", Except.error "disk",
          Except.ok "chr1\t7\t8\tz"]⟩,
       ⟨"good.bed", [Except.ok "chr2\t5\t6\tb"]⟩] (ReaderBuf.new 1)).blocks =
      [⟨"chr1", [⟨1, "a", 0, 0⟩]⟩, ⟨"chr2", [⟨5, "b", 0, 0⟩]⟩] ∧
    (read_bed_thread ⟨1, none, ["chr1", "chr2"], []⟩
      [⟨"bad.bed", [Except.ok "chr1\t1\t2\ta", Except.error "disk",
          Except.ok "chr1\t7\t8\tz"]⟩,
       ⟨"good.bed", [Except.ok "chr2\t5\t6\tb"]⟩] (ReaderBuf.new 1)).logs.countP
      LogEvent.isWarn = 0 := by
  constructor
  · decide
  · decide

/-- Claim C8 as amended: a read error aborts the failing file only — the read
loop returns at the first error with the buffer and sent blocks it had
accumulated, the worker continues with the next file (discarding the error
silently), and no warn-level message is logged. -/
theorem read_error_isolated (conf : Config) (good junk : List (Except String String))
    (e : String) (f : BedFile) (rest : List BedFile) (rb rb2 : ReaderBuf)
    (hg : ∀ l ∈ good, lineOk l = true) :
    read_bed_loop conf rb (good ++ Except.error e :: junk) =
      ((read_bed_loop conf rb good).1, (read_bed_loop conf rb good).2.1,
        Except.error e) ∧
    (read_bed_thread conf (f :: rest) rb2).blocks =
      (read_bed_file conf f rb2).blocks ++
        (read_bed_thread conf rest (read_bed_file conf f rb2).rbuf).blocks ∧
    (read_bed_thread conf (f :: rest) rb2).logs.countP LogEvent.isWarn = 0 := by
  refine ⟨read_bed_loop_stops_at_error conf good rb junk e hg, rfl, ?_⟩
  exact read_bed_thread_logs_no_warn conf (f :: rest) rb2

/-- Witness for the amended C8 at a concrete input. -/
theorem read_error_isolated_witness :
    (∀ l ∈ [Except.ok "chr1\t1\t2\ta"], lineOk l = true) ∧
    (read_bed_loop confW (ReaderBuf.new 1)
        ([Except.ok "chr1\t1\t2\ta"] ++ Except.error "disk" :: [Except.ok "chr1\t7\t8\tz"]) =
      ((read_bed_loop confW (ReaderBuf.new 1) [Except.ok "chr1\t1\t2\ta"]).1,
        (read_bed_loop confW (ReaderBuf.new 1) [Except.ok "chr1\t1\t2\ta"]).2.1,
        Except.error "disk") ∧
     (read_bed_thread confW [⟨"a.bed", [Except.ok "chr1\t1\t2\ta"]⟩]
        (ReaderBuf.new 1)).blocks =
      (read_bed_file confW ⟨"a.bed", [Except.ok "chr1\t1\t2\ta"]⟩ (ReaderBuf.new 1)).blocks ++
        (read_bed_thread confW []
          (read_bed_file confW ⟨"a.bed", [Except.ok "chr1\t1\t2\ta"]⟩
            (ReaderBuf.new 1)).rbuf).blocks ∧
     (read_bed_thread confW [⟨"a.bed", [Except.ok "chr1\t1\t2\ta"]⟩]
        (ReaderBuf.new 1)).logs.countP LogEvent.isWarn = 0) :=
  ⟨by decide, read_error_isolated confW [Except.ok "chr1\t1\t2\ta"]
    [Except.ok "chr1\t7\t8\tz"] "disk" ⟨"a.bed", [Except.ok "chr1\t1\t2\ta"]⟩ []
    (ReaderBuf.new 1) (ReaderBuf.new 1) (by decide)⟩

/-! ### The coordinator: stage sizes, drain protocol, and outcome -/

theorem foldl_append_map {α β : Type} (f : α → β) (l : List α) : ∀ (init : List β),
    l.foldl (fun acc i => acc ++ [f i]) init = init ++ l.map f := by
  induction l with
  | nil => intro init; simp
  | cons x xs ih => intro init; simp [ih]

theorem process_trace_eq (conf : Config) (files : List String) :
    process_trace conf files =
      (List.range (Nat.min conf.threads files.length)).map
        (fun i => CoordEvent.spawnReader i 256) ++
      ((List.range conf.threads).map (fun i => CoordEvent.spawnStorer i 1) ++
       ((List.range (Nat.min conf.threads files.length)).map CoordEvent.joinReader ++
        ((List.range conf.threads).map CoordEvent.sendDrain ++
         ((List.range conf.threads).map CoordEvent.joinStorer ++
          [CoordEvent.getStats, CoordEvent.printStats])))) := by
  simp [process_trace, foldl_append_map, List.append_assoc]

/-- Claim C4 counterexample at a concrete input: the trace of `process` never
contains an index-write action — after joining the storage workers the source
only reads and prints the statistics. -/
theorem process_never_writes_index :
    CoordEvent.writeIndex ∉ process_trace ⟨4, none, [], []⟩ ["f1", "f2"] := by
  decide

/-- Claim C4 as amended: the coordinator spawns the reader stage, spawns the
storage stage (each storer with a dedicated bounded channel of capacity 1),
joins all readers, sends exactly one drain signal to each of the `threads`
storage workers, joins all storage workers, and then gathers and prints the
statistics; no index file is written by `process`. -/
theorem coordinator_order (conf : Config) (files : List String) :
    process_trace conf files =
      (List.range (Nat.min conf.threads files.length)).map
        (fun i => CoordEvent.spawnReader i 256) ++
      ((List.range conf.threads).map (fun i => CoordEvent.spawnStorer i 1) ++
       ((List.range (Nat.min conf.threads files.length)).map CoordEvent.joinReader ++
        ((List.range conf.threads).map CoordEvent.sendDrain ++
         ((List.range conf.threads).map CoordEvent.joinStorer ++
          [CoordEvent.getStats, CoordEvent.printStats])))) ∧
    (∀ i, i < conf.threads →
      (process_trace conf files).count (CoordEvent.sendDrain i) = 1) ∧
    CoordEvent.writeIndex ∉ process_trace conf files := by
  refine ⟨process_trace_eq conf files, ?_, ?_⟩
  · intro i hi
    rw [process_trace_eq, List.count_append, List.count_append, List.count_append,
      List.count_append, List.count_append]
    have h0 : (List.count (CoordEvent.sendDrain i)
        ((List.range (Nat.min conf.threads files.length)).map
          (fun i => CoordEvent.spawnReader i 256))) = 0 := by
      rw [List.count_eq_zero]
      simp
    have h1 : (List.count (CoordEvent.sendDrain i)
        ((List.range conf.threads).map (fun i => CoordEvent.spawnStorer i 1))) = 0 := by
      rw [List.count_eq_zero]
      simp
    have h2 : (List.count (CoordEvent.sendDrain i)
        ((List.range (Nat.min conf.threads files.length)).map CoordEvent.joinReader)) = 0 := by
      rw [List.count_eq_zero]
      simp
    have h3 : (List.count (CoordEvent.sendDrain i)
        ((List.range conf.threads).map CoordEvent.joinStorer)) = 0 := by
      rw [List.count_eq_zero]
      simp
    have h4 : (List.count (CoordEvent.sendDrain i)
        [CoordEvent.getStats, CoordEvent.printStats]) = 0 := by
      rw [List.count_eq_zero]
      simp
    have h5 : (List.count (CoordEvent.sendDrain i)
        ((List.range conf.threads).map CoordEvent.sendDrain)) = 1 := by
      have hinj : Function.Injective CoordEvent.sendDrain := by
        intro a b h
        injection h
      refine List.count_eq_one_of_mem ((List.nodup_range _).map hinj) ?_
      exact List.mem_map_of_mem _ (List.mem_range.mpr hi)
    omega
  · rw [process_trace_eq]
    simp

/-- Claim C7: the coordinator spawns `min(threads, |files|)` reader threads
and `threads` storage threads. -/
theorem stage_sizes (conf : Config) (files : List String) (_h : 1 ≤ conf.threads) :
    (process_trace conf files).countP CoordEvent.isSpawnReader =
      Nat.min conf.threads files.length ∧
    (process_trace conf files).countP CoordEvent.isSpawnStorer = conf.threads := by
  rw [process_trace_eq]
  simp [List.countP_append, List.countP_map, CoordEvent.isSpawnReader,
    CoordEvent.isSpawnStorer, Function.comp_def]

/-- Witness for C7 at a concrete input. -/
theorem stage_sizes_witness :
    1 ≤ (3 : Nat) ∧
    ((process_trace ⟨3, none, [], []⟩ ["a", "b"]).countP CoordEvent.isSpawnReader =
        Nat.min 3 2 ∧
      (process_trace ⟨3, none, [], []⟩ ["a", "b"]).countP CoordEvent.isSpawnStorer = 3) :=
  ⟨by decide, stage_sizes ⟨3, none, [], []⟩ ["a", "b"] (by decide)⟩

/-- Witness for the amended C4 at a concrete input. -/
theorem coordinator_order_witness :
    ((process_trace ⟨2, none, [], []⟩ ["a"]).count (CoordEvent.sendDrain 0) = 1 ∧
      (process_trace ⟨2, none, [], []⟩ ["a"]).count (CoordEvent.sendDrain 1) = 1) ∧
    CoordEvent.writeIndex ∉ process_trace ⟨2, none, [], []⟩ ["a"] :=
  ⟨⟨(coordinator_order ⟨2, none, [], []⟩ ["a"]).2.1 0 (by decide),
    (coordinator_order ⟨2, none, [], []⟩ ["a"]).2.1 1 (by decide)⟩,
   (coordinator_order ⟨2, none, [], []⟩ ["a"]).2.2⟩

/-- Claim C3 counterexample at concrete inputs: a panicking reader makes
`process` itself panic via `join().unwrap()` — the outcome is not an `Err`
value wrapping the message — and on a run with no panics the success outcome
is `Ok(())` (the source's return type is `io::Result<()>`), not a value
carrying the run statistics. -/
theorem worker_panic_not_io_error :
    process_outcome [WorkerEnd.panicked "boom"] [] = ProcOutcome.panicked "boom" ∧
    (process_outcome [WorkerEnd.panicked "boom"] []).isErr = false ∧
    process_outcome [] [] = ProcOutcome.okUnit := by
  refine ⟨by decide, by decide, by decide⟩

/-- Claim C3 as amended: after all joins succeed `process` returns `Ok(())`
(statistics are printed, not returned), a panic in any worker — reader or
storer — re-panics out of `process` with the same payload via
`join().unwrap()` (readers are joined first), and no execution of `process`
produces an `Err` value. -/
theorem process_outcome_spec (readers storers : List WorkerEnd) :
    (firstPanic readers = none → firstPanic storers = none →
      process_outcome readers storers = ProcOutcome.okUnit) ∧
    (∀ m, firstPanic readers = some m →
      process_outcome readers storers = ProcOutcome.panicked m) ∧
    (∀ m, firstPanic readers = none → firstPanic storers = some m →
      process_outcome readers storers = ProcOutcome.panicked m) ∧
    (process_outcome readers storers).isErr = false := by
  refine ⟨?_, ?_, ?_, ?_⟩
  · intro h1 h2
    simp [process_outcome, h1, h2]
  · intro m hm
    simp [process_outcome, hm]
  · intro m h1 h2
    simp [process_outcome, h1, h2]
  · cases hr : firstPanic readers with
    | some m => simp [process_outcome, hr, ProcOutcome.isErr]
    | none =>
      cases hs : firstPanic storers with
      | some m => simp [process_outcome, hr, hs, ProcOutcome.isErr]
      | none => simp [process_outcome, hr, hs, ProcOutcome.isErr]

/-- Witness for the amended C3 at concrete inputs, exercising the clean run,
a reader panic and a storer panic. -/
theorem process_outcome_spec_witness :
    process_outcome [] [] = ProcOutcome.okUnit ∧
    process_outcome [WorkerEnd.panicked "boom"] [WorkerEnd.finished] =
      ProcOutcome.panicked "boom" ∧
    process_outcome [WorkerEnd.finished] [WorkerEnd.panicked "store"] =
      ProcOutcome.panicked "store" ∧
    (process_outcome [WorkerEnd.panicked "boom"] [WorkerEnd.finished]).isErr = false :=
  ⟨(process_outcome_spec [] []).1 rfl rfl,
   (process_outcome_spec [WorkerEnd.panicked "boom"] [WorkerEnd.finished]).2.1 "boom" rfl,
   (process_outcome_spec [WorkerEnd.finished] [WorkerEnd.panicked "store"]).2.2.1
     "store" rfl rfl,
   (process_outcome_spec [WorkerEnd.panicked "boom"] [WorkerEnd.finished]).2.2.2⟩

/-- Claim C9 counterexample at a concrete input: with `block_limit = 16`
configured, `process` still constructs every `ReaderBuf` with limit 256; the
spec threshold and the one used by the code differ. -/
theorem block_limit_ignored :
    process_reader_limit ⟨4, some 16, [], []⟩ = 256 ∧
    spec_block_limit ⟨4, some 16, [], []⟩ = 16 ∧
    process_reader_limit ⟨4, some 16, [], []⟩ ≠ spec_block_limit ⟨4, some 16, [], []⟩ ∧
    CoordEvent.spawnReader 0 256 ∈ process_trace ⟨4, some 16, [], []⟩ ["f1"] := by
  refine ⟨by decide, by decide, by decide, by decide⟩

/-- Claim C9 as amended: the reader-buffer flush threshold is the constant 256
for every configuration — every reader spawned by `process` receives a
`ReaderBuf` of limit 256; the `block_limit` key is never consulted. -/
theorem reader_limit_always_256 (conf : Config) (files : List String) (i lim : Nat)
    (hmem : CoordEvent.spawnReader i lim ∈ process_trace conf files) :
    lim = 256 ∧ lim = process_reader_limit conf := by
  rw [process_trace_eq] at hmem
  simp only [List.mem_append] at hmem
  rcases hmem with h | h
  · simp only [List.mem_map, List.mem_range] at h
    obtain ⟨a, _, heq⟩ := h
    injection heq with h1 h2
    exact ⟨h2.symm, h2.symm⟩
  · exfalso
    simp at h

/-- Witness for the amended C9 at a concrete input. -/
theorem reader_limit_always_256_witness :
    (CoordEvent.spawnReader 0 256 ∈ process_trace confW ["f1"]) ∧
    ((256 : Nat) = 256 ∧ (256 : Nat) = process_reader_limit confW) :=
  ⟨by decide, reader_limit_always_256 confW ["f1"] 0 256 (by decide)⟩

end GemBS





